import Mathlib

set_option maxRecDepth 100000

/-!
Verification development for the bibliographic reference extraction
pipeline of the repository (src/packages/latex/src/latex.ts).

The TypeScript source is embedded shallowly: strings are `List Char`,
each regular expression of the source is hand-translated into an
executable matcher with the same scanning, greediness, backtracking and
capture behaviour (ECMAScript semantics, no `u` flag: in particular the
escape `\Z` in a pattern matches the literal character `Z`), the file
system seen by `extractReferences` is a list of named files whose
content is `none` when reading the file fails.
-/

namespace LatexRefs

/-- Strings of the model: JavaScript strings as lists of characters. -/
abbrev Str := List Char

/-- Characters matched by the regex class `\s` (ASCII whitespace as used here). -/
def isWs (c : Char) : Bool :=
  c == ' ' || c == '\t' || c == '\n' || c == '\r' || c == '\x0b' || c == '\x0c'

/-- Characters matched by the regex class `\w`. -/
def isWordChar (c : Char) : Bool := c.isAlphanum || c == '_'

/-- Characters matched by the regex class `\d`. -/
def isDigit (c : Char) : Bool := c.isDigit

/-- Characters matched by `[A-Z]`. -/
def isUpper (c : Char) : Bool := c.isUpper

/-- Characters matched by `[a-zA-Z]`. -/
def isLetter (c : Char) : Bool := c.isAlpha

/-- Lowercase a string, as `String.prototype.toLowerCase` does for ASCII. -/
def lowerStr (s : Str) : Str := s.map Char.toLower

/-- Test whether `p` is a prefix of `s`. -/
def startsWith (p s : Str) : Bool := List.isPrefixOf p s

/-- Case-insensitive prefix test (regex `i` flag). -/
def startsWithCI (p s : Str) : Bool := List.isPrefixOf (lowerStr p) (lowerStr (s.take p.length))

/-- Test whether `suf` is a suffix of `s` (`String.prototype.endsWith`). -/
def endsWithStr (suf s : Str) : Bool := startsWith suf.reverse s.reverse

/-- Test whether `p` occurs as a contiguous substring of `s` (`String.prototype.includes`). -/
def containsSub (p : Str) : Str → Bool
  | [] => p.isEmpty
  | c :: t => startsWith p (c :: t) || containsSub p t

/-- Case-insensitive substring test. -/
def containsSubCI (p s : Str) : Bool := containsSub (lowerStr p) (lowerStr s)

/-- Trim leading and trailing whitespace (`String.prototype.trim`). -/
def trimStr (s : Str) : Str := ((s.dropWhile isWs).reverse.dropWhile isWs).reverse

/-- Helper for `collapseWs`: `prevWs` records whether the previous character was whitespace. -/
def collapseWsAux (prevWs : Bool) : Str → Str
  | [] => []
  | c :: t =>
    if isWs c then
      if prevWs then collapseWsAux true t else ' ' :: collapseWsAux true t
    else c :: collapseWsAux false t

/-- The replacement `.replace(/\s+/g, " ")`: collapse every whitespace run to one space. -/
def collapseWs (s : Str) : Str := collapseWsAux false s

/-- Split off everything before the first occurrence of `k`; `none` when `k` is absent. -/
def splitAtChar (k : Char) : Str → Option (Str × Str)
  | [] => none
  | c :: t => if c == k then some ([], t) else (splitAtChar k t).map (fun p => (c :: p.1, p.2))

/-- The replacement `.replace(/\.$/, "")`: drop one trailing period. -/
def stripDot (s : Str) : Str :=
  match s.reverse with
  | '.' :: r => r.reverse
  | _ => s

/-- Split on the separators of `/\r?\n+/`.  Consecutive separators produce empty
segments here where the regex `\n+` would swallow them; the caller filters
empty (after trimming) segments, so the results agree with the source. -/
def splitNl : Str → List Str
  | [] => [[]]
  | '\r' :: '\n' :: t => [] :: splitNl t
  | '\n' :: t => [] :: splitNl t
  | c :: t =>
    match splitNl t with
    | [] => [[c]]
    | h :: r => (c :: h) :: r

/-- Generic driver for a global regex replacement: `att` inspects the suffix at the
current position and yields the replacement text with the number of characters the
match consumed; on failure the scan advances one character, as `exec` scanning does. -/
def runReplaceAux (att : Str → Option (Str × Nat)) : Nat → Str → Str
  | _, [] => []
  | Nat.succ k, _ :: t => runReplaceAux att k t
  | 0, c :: t =>
    match att (c :: t) with
    | some (rep, n) => rep ++ runReplaceAux att (n - 1) t
    | none => c :: runReplaceAux att 0 t

/-- Generic driver for a `while (m = re.exec(s))` loop over a global regex:
collects the data of every non-overlapping match, scanning left to right. -/
def runScanAux (att : Str → Option (α × Nat)) : Nat → Str → List α
  | _, [] => []
  | Nat.succ k, _ :: t => runScanAux att k t
  | 0, c :: t =>
    match att (c :: t) with
    | some (a, n) => a :: runScanAux att (n - 1) t
    | none => runScanAux att 0 t

/-- First match of a non-global regex: try `att` at each position, left to right. -/
def scanFirst (att : Str → Option α) : Str → Option α
  | [] => none
  | c :: t =>
    match att (c :: t) with
    | some a => some a
    | none => scanFirst att t

/-- First `some` in a list of attempts, mirroring a cascade of patterns tried in order. -/
def firstOf : List (Option Str) → Option Str
  | [] => none
  | some x :: _ => some x
  | none :: t => firstOf t

/-- Match of `/\\&/g` at the current position. -/
def ampAtt (s : Str) : Option (Str × Nat) :=
  match s with
  | '\\' :: '&' :: _ => some (['&'], 2)
  | _ => none

/-- Match of `/\\\"[aouiAOUI]/g` with its function replacement: the character after
the escape, lowercased, selects the precomposed umlaut (`ï` in the default branch). -/
def umlautAtt (s : Str) : Option (Str × Nat) :=
  match s with
  | '\\' :: '"' :: c :: _ =>
    if c == 'a' || c == 'o' || c == 'u' || c == 'i' || c == 'A' || c == 'O' || c == 'U' || c == 'I' then
      let l := c.toLower
      some ([if l == 'a' then 'ä' else if l == 'o' then 'ö' else if l == 'u' then 'ü' else 'ï'], 3)
    else none
  | _ => none

/-- Match of `/\\'{[eEaAoOuUiI]}/g` with its function replacement selecting the
precomposed acute-accented character (`í` in the default branch). -/
def acuteAtt (s : Str) : Option (Str × Nat) :=
  match s with
  | '\\' :: '\x27' :: '\x7b' :: c :: '\x7d' :: _ =>
    if c == 'e' || c == 'E' || c == 'a' || c == 'A' || c == 'o' || c == 'O' || c == 'u' || c == 'U' || c == 'i' || c == 'I' then
      let l := c.toLower
      some ([if l == 'e' then 'é' else if l == 'a' then 'á' else if l == 'o' then 'ó' else if l == 'u' then 'ú' else 'í'], 5)
    else none
  | _ => none

/-- Match of `/\$([^$]+)\$/g` replaced by the capture: strip math-mode delimiters. -/
def mathAtt (s : Str) : Option (Str × Nat) :=
  match s with
  | '$' :: t =>
    match splitAtChar '$' t with
    | some (run, _) => if run.isEmpty then none else some (run, run.length + 2)
    | none => none
  | _ => none

/-- Match of `/{([^{}]*)}/g` replaced by the capture: strip one level of braces. -/
def braceAtt (s : Str) : Option (Str × Nat) :=
  match s with
  | '\x7b' :: t =>
    let run := t.takeWhile (fun c => !(c == '\x7b' || c == '\x7d'))
    match t.drop run.length with
    | '\x7d' :: _ => some (run, run.length + 2)
    | _ => none
  | _ => none

/-- The value normalizer `cleanBibtexValue`: a falsy (empty) value is returned
unchanged; otherwise the five global replacements are applied in order and the
result has whitespace collapsed and trimmed. -/
def cleanBibtexValue (value : Str) : Str :=
  if value.isEmpty then value
  else
    let v1 := runReplaceAux ampAtt 0 value
    let v2 := runReplaceAux umlautAtt 0 v1
    let v3 := runReplaceAux acuteAtt 0 v2
    let v4 := runReplaceAux mathAtt 0 v3
    let v5 := runReplaceAux braceAtt 0 v4
    trimStr (collapseWs v5)

/-- The reference record `ReferenceEntry`.  The interface's known fields are
explicit; any other BibTeX field name written onto the JavaScript object is kept
in `extra` (insertion order, later assignment to the same name overwrites). -/
structure Entry where
  id : Str := []
  type : Str := []
  label : Option Str := none
  author : Option Str := none
  title : Option Str := none
  journal : Option Str := none
  booktitle : Option Str := none
  publisher : Option Str := none
  year : Option Str := none
  volume : Option Str := none
  number : Option Str := none
  pages : Option Str := none
  doi : Option Str := none
  url : Option Str := none
  arxiv : Option Str := none
  address : Option Str := none
  raw_text : Option Str := none
  raw_bibtex : Option Str := none
  raw_bibitem : Option Str := none
  extra : List (Str × Str) := []
  deriving Repr, DecidableEq

/-- Assignment to a key of a plain JavaScript object held in an association list:
the first binding of the key is overwritten in place, a new key is appended. -/
def upsertExtra : List (Str × Str) → Str → Str → List (Str × Str)
  | [], k, v => [(k, v)]
  | (k', v') :: t, k, v => if k' = k then (k, v) :: t else (k', v') :: upsertExtra t k v

/-- The property write `entry[fieldName] = fieldValue` of the BibTeX parser:
a known field name sets the corresponding record field, anything else lands in
`extra`. -/
def setField (e : Entry) (name v : Str) : Entry :=
  if name = ("id").data then { e with id := v }
  else if name = ("type").data then { e with type := v }
  else if name = ("label").data then { e with label := some v }
  else if name = ("author").data then { e with author := some v }
  else if name = ("title").data then { e with title := some v }
  else if name = ("journal").data then { e with journal := some v }
  else if name = ("booktitle").data then { e with booktitle := some v }
  else if name = ("publisher").data then { e with publisher := some v }
  else if name = ("year").data then { e with year := some v }
  else if name = ("volume").data then { e with volume := some v }
  else if name = ("number").data then { e with number := some v }
  else if name = ("pages").data then { e with pages := some v }
  else if name = ("doi").data then { e with doi := some v }
  else if name = ("url").data then { e with url := some v }
  else if name = ("arxiv").data then { e with arxiv := some v }
  else if name = ("address").data then { e with address := some v }
  else if name = ("raw_text").data then { e with raw_text := some v }
  else if name = ("raw_bibtex").data then { e with raw_bibtex := some v }
  else if name = ("raw_bibitem").data then { e with raw_bibitem := some v }
  else { e with extra := upsertExtra e.extra name v }

/-- Non-brace characters, the regex class `[^{}]`. -/
def nb (c : Char) : Bool := !(c == '\x7b' || c == '\x7d')

/-- Match of the inner group `{[^{}]*}` (a depth-two brace group inside a BibTeX
value) at the current position; yields the matched text with its braces and the rest. -/
def grp2 (s : Str) : Option (Str × Str) :=
  match s with
  | '\x7b' :: t =>
    let run := t.takeWhile nb
    match t.drop run.length with
    | '\x7d' :: r => some ('\x7b' :: (run ++ ['\x7d']), r)
    | _ => none
  | _ => none

/-- Greedy run of `(?:[^{}]|{[^{}]*})*`, the content of a depth-one brace group. -/
def grp1Items : Nat → Str → Str × Str
  | 0, s => ([], s)
  | _ + 1, [] => ([], [])
  | fuel + 1, c :: t =>
    if nb c then
      let p := grp1Items fuel t
      (c :: p.1, p.2)
    else
      match grp2 (c :: t) with
      | some (m, r) =>
        let p := grp1Items fuel r
        (m ++ p.1, p.2)
      | none => ([], c :: t)

/-- Match of `{(?:[^{}]|{[^{}]*})*}` (a depth-one brace group) at the current
position; yields the matched text with its braces and the rest. -/
def grp1 (s : Str) : Option (Str × Str) :=
  match s with
  | '\x7b' :: t =>
    let p := grp1Items (t.length + 1) t
    match p.2 with
    | '\x7d' :: r => some ('\x7b' :: (p.1 ++ ['\x7d']), r)
    | _ => none
  | _ => none

/-- Greedy run of `(?:[^{}]|{(?:[^{}]|{[^{}]*})*})*`, the captured content of a
brace-delimited BibTeX field value. -/
def val0Items : Nat → Str → Str × Str
  | 0, s => ([], s)
  | _ + 1, [] => ([], [])
  | fuel + 1, c :: t =>
    if nb c then
      let p := val0Items fuel t
      (c :: p.1, p.2)
    else
      match grp1 (c :: t) with
      | some (m, r) =>
        let p := val0Items fuel r
        (m ++ p.1, p.2)
      | none => ([], c :: t)

/-- Brace-delimited value: the capture of form (a) of the field pattern, entered
after its opening `{`; requires the closing `}` and yields (capture, rest). -/
def braceVal (t : Str) : Option (Str × Str) :=
  let p := val0Items (t.length + 1) t
  match p.2 with
  | '\x7d' :: r => some (p.1, r)
  | _ => none

/-- Characters allowed in a bareword field value, the class `[^,\s{}"'\n]`. -/
def isBare (c : Char) : Bool :=
  !(c == ',' || isWs c || c == '\x7b' || c == '\x7d' || c == '"' || c == '\x27')

/-- One match of the field pattern
`(\w+)\s*=\s*{...}|(\w+)\s*=\s*"([^"]*)"|(\w+)\s*=\s*(\d+(?:\.\d+)?)|(\w+)\s*=\s*([^,\s{}"'\n]+)`
at the current position.  The result carries the field name, the raw captured
value, whether the value came from the brace or quote form (those are passed
through `cleanBibtexValue` by the caller), and the number of consumed characters.
The four alternatives share the `(\w+)\s*=\s*` prefix, so they are dispatched on
the first character of the value; a value starting with `{` whose brace group
does not close matches no alternative, exactly as in the source pattern. -/
def fieldAttempt (s : Str) : Option ((Str × Str × Bool) × Nat) :=
  let name := s.takeWhile isWordChar
  if name.isEmpty then none
  else
    let r1 := (s.drop name.length).dropWhile isWs
    match r1 with
    | '=' :: r2 =>
      let r3 := r2.dropWhile isWs
      match r3 with
      | '\x7b' :: u =>
        match braceVal u with
        | some (v, rest) => some ((name, v, true), s.length - rest.length)
        | none => none
      | '"' :: u =>
        match splitAtChar '"' u with
        | some (q, rest) => some ((name, q, true), s.length - rest.length)
        | none => none
      | c :: _ =>
        if isDigit c then
          let d := r3.takeWhile isDigit
          let r4 := r3.drop d.length
          match r4 with
          | '.' :: r5 =>
            let f := r5.takeWhile isDigit
            if f.isEmpty then some ((name, d, false), s.length - r4.length)
            else some ((name, (d ++ ('.' :: f)), false), s.length - (r5.drop f.length).length)
          | _ => some ((name, d, false), s.length - r4.length)
        else
          let b := r3.takeWhile isBare
          if b.isEmpty then none
          else some ((name, b, false), s.length - (r3.drop b.length).length)
      | [] => none
    | _ => none

/-- The lookahead `(?=\s*@|\s*\Z)` of the entry pattern.  The pattern carries no
`u` flag, so ECMAScript treats `\Z` as an identity escape matching the literal
character `Z` (the anchor meaning it has in Python, from which this parser was
ported, does not exist in JavaScript). -/
def bxLook (v : Str) : Bool :=
  match v.dropWhile isWs with
  | '@' :: _ => true
  | 'Z' :: _ => true
  | _ => false

/-- The lazy body `([^@]+?)` of the entry pattern: consume at least one
non-`@` character and stop at the first position where the lookahead holds;
yields (captured body, rest at the lookahead position). -/
def bxLazy : Str → Option (Str × Str)
  | [] => none
  | c :: t =>
    if c == '@' then none
    else if bxLook t then some ([c], t)
    else (bxLazy t).map (fun p => (c :: p.1, p.2))

/-- Backtracking over the `\s*` preceding the lazy body: the greedy run of `w`
whitespace characters is given back one character at a time until the rest matches. -/
def bxBodyW (t : Str) : Nat → Option (Str × Str)
  | 0 => bxLazy t
  | w + 1 =>
    match bxLazy (t.drop (w + 1)) with
    | some p => some p
    | none => bxBodyW t w

/-- The tail `\s*([^@]+?)(?=\s*@|\s*\Z)` of the entry pattern, applied to the text
after the comma. -/
def bxBody (t : Str) : Option (Str × Str) := bxBodyW t ((t.takeWhile isWs).length)

/-- One match of the entry pattern `@(\w+)\s*{\s*([^,]+),\s*([^@]+?)(?=\s*@|\s*\Z)`
at the current position; yields (type, key, body) captures and the consumed length. -/
def entryAttempt (s : Str) : Option ((Str × Str × Str) × Nat) :=
  match s with
  | '@' :: t =>
    let ty := t.takeWhile isWordChar
    if ty.isEmpty then none
    else
      match (t.drop ty.length).dropWhile isWs with
      | '\x7b' :: r2 =>
        let r3 := r2.dropWhile isWs
        let key := r3.takeWhile (fun c => !(c == ','))
        if key.isEmpty then none
        else
          match r3.drop key.length with
          | ',' :: r4 =>
            match bxBody r4 with
            | some (body, rest) => some ((ty, key, body), s.length - rest.length)
            | none => none
          | _ => none
      | _ => none
  | _ => none

/-- Write one extracted field onto the entry under construction; values of the
brace and quote forms go through the normalizer first, as in the source. -/
def bxFieldStep (e : Entry) (m : Str × Str × Bool) : Entry :=
  setField e (lowerStr m.1) (if m.2.2 then cleanBibtexValue m.2.1 else m.2.1)

/-- The BibTeX content parser `parseBibtexContent`: scan the content with the
entry pattern; for each match, lowercase the type, trim the key and body, extract
the fields from the trimmed body with the field pattern, and finally set
`raw_bibtex` to the reconstruction `@type{id, content}`. -/
def parseBibtexContent (content : Str) : List Entry :=
  (runScanAux entryAttempt 0 content).map (fun m =>
    let entryType := lowerStr m.1
    let entryId := trimStr m.2.1
    let entryContent := trimStr m.2.2
    let e0 : Entry := { id := entryId, type := entryType }
    let e1 := (runScanAux fieldAttempt 0 entryContent).foldl bxFieldStep e0
    let raw := ('@' :: entryType) ++ ('\x7b' :: entryId) ++ (',' :: ' ' :: entryContent) ++ ['\x7d']
    { e1 with raw_bibtex := some raw })

/-- The literal `\bibitem`. -/
def BIBITEM_LIT : Str := ("\\bibitem").data

/-- The literal `\end{thebibliography}`. -/
def THEBIB_END : Str := ("\\end\x7bthebibliography\x7d").data

/-- The lookahead `(?=\\bibitem|\\end\{thebibliography\}|$)` that delimits a
bibitem body. -/
def bibStopAt (s : Str) : Bool :=
  s.isEmpty || startsWith BIBITEM_LIT s || startsWith THEBIB_END s

/-- The lazy body `(.*?)` of `BIBITEM_PATTERN` (with the `s` flag, `.` matches
every character): the shortest prefix whose end satisfies the lookahead; the
rest starts at the lookahead position and is not consumed. -/
def bodyTake : Str → Str × Str
  | [] => ([], [])
  | c :: t =>
    if bibStopAt (c :: t) then ([], c :: t)
    else
      let p := bodyTake t
      (c :: p.1, p.2)

/-- The part `\{(.*?)\}(.*?)(?=...)` of `BIBITEM_PATTERN` after the optional
label: an opening brace, the lazy key up to the first `}`, and the body;
yields (key, body, rest). -/
def keyBody (u : Str) : Option (Str × Str × Str) :=
  match u with
  | '\x7b' :: u1 =>
    (splitAtChar '\x7d' u1).map (fun p =>
      let q := bodyTake p.2
      (p.1, q.1, q.2))
  | _ => none

/-- Backtracking of the optional group `(?:\[(.*?)])?`: the lazy label grows to
each successive `]`; at each candidate the continuation `\{...` is attempted, and
the label absorbs the failed `]` when it is not followed by a matching key. -/
def labelLoop (acc : Str) : Str → Option (Str × Str × Str × Str)
  | [] => none
  | c :: t =>
    if c == ']' then
      match keyBody t with
      | some (k, b, r) => some (acc, k, b, r)
      | none => labelLoop (acc ++ [c]) t
    else labelLoop (acc ++ [c]) t

/-- Captures of one `BIBITEM_PATTERN` match. -/
structure BibItemRaw where
  label : Option Str
  key : Str
  body : Str
  deriving Repr, DecidableEq

/-- One match of
`/\\bibitem(?:\[(.*?)])?\{(.*?)\}(.*?)(?=\\bibitem|\\end\{thebibliography\}|$)/gs`
at the current position, with the number of consumed characters.  When the text
after `\bibitem` starts with `[` and no label candidate is followed by `{`, the
empty alternative of the optional group also fails (it requires `{` where the `[`
stands), so the whole attempt fails. -/
def bibitemAttempt (s : Str) : Option (BibItemRaw × Nat) :=
  if startsWith BIBITEM_LIT s then
    match s.drop 8 with
    | '[' :: t1 =>
      match labelLoop [] t1 with
      | some (lab, k, b, r) => some (⟨some lab, k, b⟩, s.length - r.length)
      | none => none
    | t =>
      match keyBody t with
      | some (k, b, r) => some (⟨none, k, b⟩, s.length - r.length)
      | none => none
  else none

/-- The loop `while ((m = BIBITEM_PATTERN.exec(content)) !== null)` on the shared
global regex object: matches are collected left to right without overlap and the
returned number is the `lastIndex` the regex object holds after the loop — the
final `exec` call returns `null` and thereby resets `lastIndex` to `0`, which is
what the base cases produce. -/
def bibExecLoop : Nat → Str → List BibItemRaw × Nat
  | _, [] => ([], 0)
  | Nat.succ k, _ :: t => bibExecLoop k t
  | 0, c :: t =>
    match bibitemAttempt (c :: t) with
    | some (m, n) =>
      let p := bibExecLoop (n - 1) t
      (m :: p.1, p.2)
    | none => bibExecLoop 0 t

/-- Characters of the stop class in `[^,\.]`. -/
def stopCP (c : Char) : Bool := c == ',' || c == '.'

/-- Match of `\s+([^X]+)\}` for a closing brace, with the regex backtracking: the
greedy `\s+` run of length `w+1` down to `1` is tried, and each time the greedy
capture runs to the first `}` and must be nonempty and closed. -/
def wsCapCloseAux (t : Str) : Nat → Option Str
  | 0 => none
  | w + 1 =>
    let u := t.drop (w + 1)
    let run := u.takeWhile (fun c => !(c == '\x7d'))
    match u.drop run.length with
    | '\x7d' :: _ => if run.isEmpty then wsCapCloseAux t w else some run
    | _ => wsCapCloseAux t w

/-- Match of `\s+([^}]+)\}` at `t`. -/
def wsCapClose (t : Str) : Option Str := wsCapCloseAux t ((t.takeWhile isWs).length)

/-- Match of `\s+(P+)` where `P` excludes the characters in `stop` but contains
whitespace; implemented with the same give-back-one backtracking as the regex. -/
def wsCapOpenAux (stop : Char → Bool) (t : Str) : Nat → Option Str
  | 0 => none
  | w + 1 =>
    let run := (t.drop (w + 1)).takeWhile (fun c => !(stop c))
    if run.isEmpty then wsCapOpenAux stop t w else some run

/-- Match of `\s+([^,\.]+)`-shaped tails at `t`. -/
def wsCapOpen (stop : Char → Bool) (t : Str) : Option Str :=
  wsCapOpenAux stop t ((t.takeWhile isWs).length)

/-- Match of `\s*(P+)` (whitespace optional) with backtracking down to zero
whitespace characters consumed. -/
def wsCapOpen0Aux (stop : Char → Bool) (t : Str) : Nat → Option Str
  | 0 =>
    let run := t.takeWhile (fun c => !(stop c))
    if run.isEmpty then none else some run
  | w + 1 =>
    let run := (t.drop (w + 1)).takeWhile (fun c => !(stop c))
    if run.isEmpty then wsCapOpen0Aux stop t w else some run

/-- Match of `\s*([^,\.]+)`-shaped tails at `t`. -/
def wsCapOpen0 (stop : Char → Bool) (t : Str) : Option Str :=
  wsCapOpen0Aux stop t ((t.takeWhile isWs).length)

/-- Try the literal alternatives in order at the head of `u` (case-insensitively
when `ci` is set) and return the matched text from `u`. -/
def matchKw (kws : List Str) (ci : Bool) (u : Str) : Option Str :=
  match kws with
  | [] => none
  | k :: r =>
    if (if ci then startsWithCI k u else startsWith k u) then some (u.take k.length)
    else matchKw r ci u

/-- Backtracking for `[^,\.]*(?:K1|K2|...)[^,\.]*`: the first greedy run is given
back from `i` characters down to zero, at each position the keyword alternatives
are tried in order, and the second run is greedy. -/
def kwTailAux (kws : List Str) (ci : Bool) (u : Str) : Nat → Option Str
  | 0 =>
    (matchKw kws ci u).map (fun k => k ++ (u.drop k.length).takeWhile (fun c => !(stopCP c)))
  | i + 1 =>
    match matchKw kws ci (u.drop (i + 1)) with
    | some k =>
      some ((u.take (i + 1)) ++ k ++ (u.drop (i + 1 + k.length)).takeWhile (fun c => !(stopCP c)))
    | none => kwTailAux kws ci u i

/-- Match of `[^,\.]*(?:K1|K2|...)[^,\.]*` at `u`. -/
def kwTail (kws : List Str) (ci : Bool) (u : Str) : Option Str :=
  kwTailAux kws ci u ((u.takeWhile (fun c => !(stopCP c))).length)

/-- Journal pattern 1, `/\textit{([^}]+)}/` at a position. -/
def j1Att (s : Str) : Option Str :=
  if startsWith (("\\textit\x7b").data) s then
    let t := s.drop 8
    let run := t.takeWhile (fun c => !(c == '\x7d'))
    match t.drop run.length with
    | '\x7d' :: _ => if run.isEmpty then none else some run
    | _ => none
  else none

/-- Journal pattern 2, `/\emph{([^}]+)}/` at a position. -/
def j2Att (s : Str) : Option Str :=
  if startsWith (("\\emph\x7b").data) s then
    let t := s.drop 6
    let run := t.takeWhile (fun c => !(c == '\x7d'))
    match t.drop run.length with
    | '\x7d' :: _ => if run.isEmpty then none else some run
    | _ => none
  else none

/-- Journal pattern 3, `/{\em\s+([^}]+)}/` at a position. -/
def j3Att (s : Str) : Option Str :=
  match s with
  | '\x7b' :: '\\' :: 'e' :: 'm' :: t => wsCapClose t
  | _ => none

/-- Journal pattern 4, `/\em\s+([^,\.]+)/` at a position. -/
def j4Att (s : Str) : Option Str :=
  match s with
  | '\\' :: 'e' :: 'm' :: t => wsCapOpen stopCP t
  | _ => none

/-- Journal pattern 5, `/In\s+{\\\w+\s+([^}]+)}/` at a position. -/
def j5Att (s : Str) : Option Str :=
  match s with
  | 'I' :: 'n' :: t =>
    let ws := t.takeWhile isWs
    if ws.isEmpty then none
    else
      match t.drop ws.length with
      | '\x7b' :: '\\' :: u =>
        let w := u.takeWhile isWordChar
        if w.isEmpty then none else wsCapClose (u.drop w.length)
      | _ => none
  | _ => none

/-- Journal pattern 6, `/In\s+\textit{([^}]+)}/` at a position. -/
def j6Att (s : Str) : Option Str :=
  match s with
  | 'I' :: 'n' :: t =>
    let ws := t.takeWhile isWs
    if ws.isEmpty then none
    else
      let u := t.drop ws.length
      if startsWith (("\\textit\x7b").data) u then
        let v := u.drop 8
        let run := v.takeWhile (fun c => !(c == '\x7d'))
        match v.drop run.length with
        | '\x7d' :: _ => if run.isEmpty then none else some run
        | _ => none
      else none
  | _ => none

/-- Journal pattern 7, `/In\s*["']([^"']+)["']/` at a position. -/
def j7Att (s : Str) : Option Str :=
  match s with
  | 'I' :: 'n' :: t =>
    match t.dropWhile isWs with
    | q :: u =>
      if q == '"' || q == '\x27' then
        let run := u.takeWhile (fun c => !(c == '"' || c == '\x27'))
        match u.drop run.length with
        | q2 :: _ =>
          if (q2 == '"' || q2 == '\x27') && !run.isEmpty then some run else none
        | [] => none
      else none
    | [] => none
  | _ => none

/-- Journal pattern 8, `/(?:In |in ){\it ([^}]+)}/` at a position. -/
def j8Att (s : Str) : Option Str :=
  match s with
  | i :: 'n' :: ' ' :: '\x7b' :: '\\' :: 'i' :: 't' :: ' ' :: u =>
    if i == 'I' || i == 'i' then
      let run := u.takeWhile (fun c => !(c == '\x7d'))
      match u.drop run.length with
      | '\x7d' :: _ => if run.isEmpty then none else some run
      | _ => none
    else none
  | _ => none

/-- Keyword alternatives of journal pattern 9. -/
def j9Kws : List Str :=
  [("Journal").data, ("Proceedings").data, ("Transactions").data, ("Review").data, ("Letters").data]

/-- Journal pattern 9,
`/(?:\.)\s+([A-Z][^,\.]*(?:Journal|Proceedings|Transactions|Review|Letters)[^,\.]*)/`
at a position. -/
def j9Att (s : Str) : Option Str :=
  match s with
  | '.' :: t =>
    let ws := t.takeWhile isWs
    if ws.isEmpty then none
    else
      match t.drop ws.length with
      | c :: u1 => if isUpper c then (kwTail j9Kws false u1).map (fun r => c :: r) else none
      | [] => none
  | _ => none

/-- The alternation `(?:proceedings\s+of|proc\.\s+of|Proc\.\s+of)` under the `i`
flag (the second and third alternatives coincide case-insensitively); returns the
rest after the `of`. -/
def procAlt (u : Str) : Option Str :=
  if startsWithCI (("proceedings").data) u then
    let t := u.drop 11
    let w := t.takeWhile isWs
    if w.isEmpty then none
    else if startsWithCI (("of").data) (t.drop w.length) then some (t.drop (w.length + 2))
    else none
  else if startsWithCI (("proc.").data) u then
    let t := u.drop 5
    let w := t.takeWhile isWs
    if w.isEmpty then none
    else if startsWithCI (("of").data) (t.drop w.length) then some (t.drop (w.length + 2))
    else none
  else none

/-- Booktitle pattern 1,
`/In\s+(?:proceedings\s+of|proc\.\s+of|Proc\.\s+of)\s+the\s+([^,\.]+)/i` at a position. -/
def b1Att (s : Str) : Option Str :=
  if startsWithCI (("in").data) s then
    let t := s.drop 2
    let ws := t.takeWhile isWs
    if ws.isEmpty then none
    else
      (procAlt (t.drop ws.length)).bind (fun u2 =>
        let ws2 := u2.takeWhile isWs
        if ws2.isEmpty then none
        else
          let v := u2.drop ws2.length
          if startsWithCI (("the").data) v then wsCapOpen stopCP (v.drop 3) else none)
  else none

/-- Keyword alternatives of booktitle pattern 2. -/
def b2Kws : List Str := [("Conference").data, ("Symposium").data, ("Workshop").data]

/-- Booktitle pattern 2,
`/In\s+([^,\.]*(?:Conference|Symposium|Workshop)[^,\.]*)/i` at a position.  The
capture may not start inside the greedy `\s+` run (its first character would have
to be whitespace where a keyword is required later at unchanged positions), so
only the full whitespace run is consumed. -/
def b2Att (s : Str) : Option Str :=
  if startsWithCI (("in").data) s then
    let t := s.drop 2
    let ws := t.takeWhile isWs
    if ws.isEmpty then none else kwTail b2Kws true (t.drop ws.length)
  else none

/-- Publisher pattern 1, `/(?:publisher|Publisher)\s*[:=]\s*([^,\.]+)/` at a position. -/
def p1Att (s : Str) : Option Str :=
  if startsWith (("publisher").data) s || startsWith (("Publisher").data) s then
    match (s.drop 9).dropWhile isWs with
    | ':' :: v => wsCapOpen0 stopCP v
    | '=' :: v => wsCapOpen0 stopCP v
    | _ => none
  else none

/-- Keyword alternatives of publisher pattern 2. -/
def p2Kws : List Str := [("Press").data, ("Publishers").data, ("Publishing").data]

/-- Lazy part of publisher pattern 2: grow `[^,\.]+?` one character at a time and
try the keyword alternatives after each step. -/
def p2Lazy (acc : Str) : Str → Option Str
  | [] => none
  | c :: t =>
    if stopCP c then none
    else
      match matchKw p2Kws false t with
      | some k => some (acc ++ [c] ++ k)
      | none => p2Lazy (acc ++ [c]) t

/-- Publisher pattern 2, `/([^,\.]+?(?:Press|Publishers|Publishing))/` at a position. -/
def p2Att (s : Str) : Option Str := p2Lazy [] s

/-- Match of `(19|20)\d{2}\b` at a position whose preceding boundary is already
established. -/
def yearTry (s : Str) : Option Str :=
  match s with
  | a :: b :: c :: d :: rest =>
    if ((a == '1' && b == '9') || (a == '2' && b == '0')) && isDigit c && isDigit d then
      match rest with
      | [] => some [a, b, c, d]
      | e :: _ => if isWordChar e then none else some [a, b, c, d]
    else none
  | _ => none

/-- Scan for `/\b(19|20)\d{2}\b/` threading whether the previous character was a
word character, which decides the left boundary `\b`. -/
def yearScanAux (prevW : Bool) : Str → Option Str
  | [] => none
  | c :: t =>
    match (if prevW then none else yearTry (c :: t)) with
    | some r => some r
    | none => yearScanAux (isWordChar c) t

/-- Extraction of the `year` field: the whole text of the first match of
`/\b(19|20)\d{2}\b/`. -/
def yearX (s : Str) : Option Str := yearScanAux false s

/-- Deterministic tail `\s*[:=]?\s*(R+)` for a capture class `keep` disjoint from
whitespace and from `:`/`=`. -/
def sepNum (keep : Char → Bool) (t : Str) : Option Str :=
  let u := t.dropWhile isWs
  let u2 :=
    match u with
    | ':' :: v => v.dropWhile isWs
    | '=' :: v => v.dropWhile isWs
    | _ => u
  let d := u2.takeWhile keep
  if d.isEmpty then none else some d

/-- Volume pattern, `/(?:volume|Vol\.)\s*[:=]?\s*(\d+)/i` at a position. -/
def volAtt (s : Str) : Option Str :=
  if startsWithCI (("volume").data) s then sepNum isDigit (s.drop 6)
  else if startsWithCI (("vol.").data) s then sepNum isDigit (s.drop 4)
  else none

/-- Number pattern, `/(?:number|No\.|issue)\s*[:=]?\s*(\d+)/i` at a position. -/
def numAtt (s : Str) : Option Str :=
  if startsWithCI (("number").data) s then sepNum isDigit (s.drop 6)
  else if startsWithCI (("no.").data) s then sepNum isDigit (s.drop 3)
  else if startsWithCI (("issue").data) s then sepNum isDigit (s.drop 5)
  else none

/-- Characters of the pages capture class `[\d\-–—]`. -/
def isPgChar (c : Char) : Bool := isDigit c || c == '-' || c == '–' || c == '—'

/-- Pages pattern, `/(?:pages|pp\.)\s*[:=]?\s*([\d\-–—]+)/i` at a position. -/
def pagesAtt (s : Str) : Option Str :=
  if startsWithCI (("pages").data) s then sepNum isPgChar (s.drop 5)
  else if startsWithCI (("pp.").data) s then sepNum isPgChar (s.drop 3)
  else none

/-- The capture of the pages pattern on the full raw text, before normalization. -/
def pagesCapture (raw : Str) : Option Str := scanFirst pagesAtt raw

/-- The replacement `pg.replace(/[–—]/g, "-")`: every en or em dash becomes an
ASCII hyphen. -/
def dashFix (s : Str) : Str := s.map (fun c => if c == '–' || c == '—' then '-' else c)

/-- Capture `\s*([^\s,]+)` after a doi separator (deterministic: the class is
whitespace-free). -/
def capNonWsComma (v : Str) : Option Str :=
  let w := v.dropWhile isWs
  let run := w.takeWhile (fun c => !(isWs c || c == ','))
  if run.isEmpty then none else some run

/-- First doi pattern, `/doi\s*[:=]\s*([^\s,]+)/i` at a position. -/
def doiAtt (s : Str) : Option Str :=
  if startsWithCI (("doi").data) s then
    match (s.drop 3).dropWhile isWs with
    | ':' :: v => capNonWsComma v
    | '=' :: v => capNonWsComma v
    | _ => none
  else none

/-- The scheme `https?:\/\/` under the `i` flag; returns the rest after it. -/
def httpPrefCI (s : Str) : Option Str :=
  if startsWithCI (("https://").data) s then some (s.drop 8)
  else if startsWithCI (("http://").data) s then some (s.drop 7)
  else none

/-- Second doi pattern, `/https?:\/\/(?:dx\.)?doi\.org\/([^\s,]+)/i` at a position. -/
def doi2Att (s : Str) : Option Str :=
  (httpPrefCI s).bind (fun u =>
    let u2 := if startsWithCI (("dx.").data) u then u.drop 3 else u
    if startsWithCI (("doi.org/").data) u2 then
      let run := (u2.drop 8).takeWhile (fun c => !(isWs c || c == ','))
      if run.isEmpty then none else some run
    else none)

/-- First url pattern, `/\url{([^}]+)}/` (case-sensitive) at a position. -/
def urlAtt (s : Str) : Option Str :=
  if startsWith (("\\url\x7b").data) s then
    let t := s.drop 5
    let run := t.takeWhile (fun c => !(c == '\x7d'))
    match t.drop run.length with
    | '\x7d' :: _ => if run.isEmpty then none else some run
    | _ => none
  else none

/-- Second url pattern, `/https?:\/\/[^\s,}]+/` (case-sensitive); the field takes
the whole match including the scheme. -/
def url2Att (s : Str) : Option Str :=
  let pref :=
    if startsWith (("https://").data) s then some 8
    else if startsWith (("http://").data) s then some 7
    else none
  pref.bind (fun n =>
    let run := (s.drop n).takeWhile (fun c => !(isWs c || c == ',' || c == '\x7d'))
    if run.isEmpty then none else some (s.take n ++ run))

/-- First arxiv pattern, `/arXiv:([^\s,}]+)/i` at a position. -/
def arxivAtt (s : Str) : Option Str :=
  if startsWithCI (("arxiv:").data) s then
    let run := (s.drop 6).takeWhile (fun c => !(isWs c || c == ',' || c == '\x7d'))
    if run.isEmpty then none else some run
  else none

/-- Second arxiv pattern, `/https?:\/\/arxiv\.org\/abs\/([^\s,}]+)/i` at a position. -/
def arxiv2Att (s : Str) : Option Str :=
  (httpPrefCI s).bind (fun u =>
    if startsWithCI (("arxiv.org/abs/").data) u then
      let run := (u.drop 14).takeWhile (fun c => !(isWs c || c == ',' || c == '\x7d'))
      if run.isEmpty then none else some run
    else none)

/-- First address pattern, `/address\s*[:=]\s*([^,\.]+)/` (case-sensitive) at a position. -/
def a1Att (s : Str) : Option Str :=
  if startsWith (("address").data) s then
    match (s.drop 7).dropWhile isWs with
    | ':' :: v => wsCapOpen0 stopCP v
    | '=' :: v => wsCapOpen0 stopCP v
    | _ => none
  else none

/-- Second address pattern, `/([A-Z][a-zA-Z]+,\s+[A-Z]{2,})/` at a position. -/
def a2Att (s : Str) : Option Str :=
  match s with
  | c :: t =>
    if isUpper c then
      let run := t.takeWhile isLetter
      if run.isEmpty then none
      else
        match t.drop run.length with
        | ',' :: v =>
          let ws := v.takeWhile isWs
          if ws.isEmpty then none
          else
            let ups := (v.drop ws.length).takeWhile isUpper
            if ups.length ≥ 2 then some ((c :: run) ++ [','] ++ ws ++ ups) else none
        | _ => none
    else none
  | [] => none

/-- Third address pattern, `/([A-Z][a-zA-Z]+,\s+[A-Z][a-zA-Z]+)/` at a position. -/
def a3Att (s : Str) : Option Str :=
  match s with
  | c :: t =>
    if isUpper c then
      let run := t.takeWhile isLetter
      if run.isEmpty then none
      else
        match t.drop run.length with
        | ',' :: v =>
          let ws := v.takeWhile isWs
          if ws.isEmpty then none
          else
            match v.drop ws.length with
            | c2 :: u =>
              if isUpper c2 then
                let run2 := u.takeWhile isLetter
                if run2.isEmpty then none
                else some ((c :: run) ++ [','] ++ ws ++ (c2 :: run2))
              else none
            | [] => none
        | _ => none
    else none
  | [] => none

/-- The test `/\textit{[^}]*book[^}]*/i.test(rawText)` of the book heuristic. -/
def bookAtt (s : Str) : Option Unit :=
  if startsWithCI (("\\textit\x7b").data) s then
    let run := (s.drop 8).takeWhile (fun c => !(c == '\x7d'))
    if containsSubCI (("book").data) run then some () else none
  else none

/-- Book heuristic test over the whole raw text. -/
def bookTest (raw : Str) : Bool := (scanFirst bookAtt raw).isSome

/-- Match of `/\\newblock\s*/gi` replaced by a newline. -/
def nbAtt (s : Str) : Option (Str × Nat) :=
  if startsWithCI (("\\newblock").data) s then
    let ws := (s.drop 9).takeWhile isWs
    some (['\n'], 9 + ws.length)
  else none

/-- The replacement `body.replace(/\\newblock\s*/gi, "\n")`. -/
def replaceNewblock (s : Str) : Str := runReplaceAux nbAtt 0 s

/-- The partial record built by `parseBibitemContent`; `btype` models the
optional `fields.type` produced by the book heuristic. -/
structure BFields where
  raw_text : Option Str := none
  author : Option Str := none
  title : Option Str := none
  journal : Option Str := none
  booktitle : Option Str := none
  publisher : Option Str := none
  year : Option Str := none
  volume : Option Str := none
  number : Option Str := none
  pages : Option Str := none
  doi : Option Str := none
  url : Option Str := none
  arxiv : Option Str := none
  address : Option Str := none
  btype : Option Str := none
  deriving Repr, DecidableEq

/-- The heuristic field extraction `parseBibitemContent` applied to one bibitem
body (the caller passes the trimmed body).  Everything follows the source order:
collapsed raw text, logical lines split at `\newblock` and line breaks with the
first line as author and the second as title (each with one trailing period
stripped), the journal cascade, the booktitle cascade only without a journal, the
publisher cascade, the scalar extractors, and the book type heuristic. -/
def parseBibitemContent (body : Str) : BFields :=
  let rawText := trimStr (collapseWs body)
  let lls := ((splitNl (replaceNewblock body)).map trimStr).filter (fun l => !l.isEmpty)
  let j := firstOf
    [scanFirst j1Att rawText, scanFirst j2Att rawText, scanFirst j3Att rawText,
     scanFirst j4Att rawText, scanFirst j5Att rawText, scanFirst j6Att rawText,
     scanFirst j7Att rawText, scanFirst j8Att rawText, scanFirst j9Att rawText]
  let bt :=
    if j.isSome then none
    else firstOf [scanFirst b1Att rawText, scanFirst b2Att rawText]
  let pub := firstOf [scanFirst p1Att rawText, scanFirst p2Att rawText]
  let addr := firstOf [scanFirst a1Att rawText, scanFirst a2Att rawText, scanFirst a3Att rawText]
  { raw_text := some rawText
    author := lls.head?.map stripDot
    title := (lls.get? 1).map stripDot
    journal := j.map trimStr
    booktitle := bt.map trimStr
    publisher := pub.map trimStr
    year := yearX rawText
    volume := scanFirst volAtt rawText
    number := scanFirst numAtt rawText
    pages := (pagesCapture rawText).map dashFix
    doi := firstOf [scanFirst doiAtt rawText, scanFirst doi2Att rawText]
    url := firstOf [scanFirst urlAtt rawText, scanFirst url2Att rawText]
    arxiv := firstOf [scanFirst arxivAtt rawText, scanFirst arxiv2Att rawText]
    address := addr.map trimStr
    btype := if bookTest rawText && j.isNone then some (("book").data) else none }

/-- Assembly of one entry from a `BIBITEM_PATTERN` match: the spread
`{id, type: "bibitem", ...(optLabel ? {label} : {}), ...parseBibitemContent(body.trim())}`
followed by the `raw_bibitem` reconstruction (an empty optional label is falsy in
the source, so it neither yields a `label` nor the labelled reconstruction; the
labelled reconstruction contains a space between `]` and `{`, as in the source
template). -/
def bibitemEntry (m : BibItemRaw) : Entry :=
  let bodyT := trimStr m.body
  let f := parseBibitemContent bodyT
  let labelled :=
    match m.label with
    | some l => !l.isEmpty
    | none => false
  let raw :=
    match m.label with
    | some l =>
      if l.isEmpty then BIBITEM_LIT ++ ('\x7b' :: m.key) ++ ('\x7d' :: ' ' :: bodyT)
      else BIBITEM_LIT ++ ('[' :: l) ++ (']' :: ' ' :: '\x7b' :: m.key) ++ ('\x7d' :: ' ' :: bodyT)
    | none => BIBITEM_LIT ++ ('\x7b' :: m.key) ++ ('\x7d' :: ' ' :: bodyT)
  { id := trimStr m.key
    type := f.btype.getD (("bibitem").data)
    label := if labelled then (m.label.map trimStr) else none
    author := f.author
    title := f.title
    journal := f.journal
    booktitle := f.booktitle
    publisher := f.publisher
    year := f.year
    volume := f.volume
    number := f.number
    pages := f.pages
    doi := f.doi
    url := f.url
    arxiv := f.arxiv
    address := f.address
    raw_text := f.raw_text
    raw_bibitem := some raw }

/-- The LaTeX bibliography parser run against the shared global `BIBITEM_PATTERN`
object: `lastIndex` is the regex state before the call, the returned number is
the state it leaves behind. -/
def parseLatexBibliographyContentS (content : Str) (lastIndex : Nat) : List Entry × Nat :=
  let p := bibExecLoop 0 (content.drop lastIndex)
  (p.1.map bibitemEntry, p.2)

/-- The LaTeX bibliography parser `parseLatexBibliographyContent` as called in the
source, where every call starts with the `lastIndex` left by a completed previous
loop. -/
def parseLatexBibliographyContent (content : Str) : List Entry :=
  (parseLatexBibliographyContentS content 0).1

/-- A file of the model file system: its name and its content, `none` when the
read fails (permission or encoding error). -/
structure MFile where
  name : Str
  content : Option Str
  deriving Repr, DecidableEq

/-- Readability of a file in the model. -/
def readableF (f : MFile) : Bool := f.content.isSome

/-- The object write `entriesMap[entry.id] = entry` on the values list of the
mapping: the first entry with the key keeps its position and is replaced, a new
key is appended. -/
def upsert : List Entry → Entry → List Entry
  | [], e => [e]
  | a :: l, e => if a.id = e.id then e :: l else a :: upsert l e

/-- The fold of one readable BibTeX file into the mapping together with the
`foundBibtex` flag; an unreadable file is caught and skipped. -/
def bibStep (acc : List Entry × Bool) (f : MFile) : List Entry × Bool :=
  match f.content with
  | none => acc
  | some c => ((parseBibtexContent c).foldl upsert acc.1, true)

/-- The fold of one readable `.tex` file containing `\bibitem` into the mapping;
an unreadable file is caught and skipped. -/
def texStep (acc : List Entry) (f : MFile) : List Entry :=
  match f.content with
  | none => acc
  | some c =>
    if containsSub (("\\bibitem").data) c then (parseLatexBibliographyContent c).foldl upsert acc
    else acc

/-- The dispatcher `extractReferences` over the model directory (the list of
files of the recursive walk, in enumeration order): parse every readable `.bib`
file into the mapping and remember whether any was read; only when none was,
parse the `.tex` files whose content contains `\bibitem`; return the values of
the mapping. -/
def extractReferences (files : List MFile) : List Entry :=
  let bibFiles := files.filter (fun f => endsWithStr ((".bib").data) f.name)
  let r := bibFiles.foldl bibStep ([], false)
  if r.2 then r.1
  else
    let texFiles := files.filter (fun f => endsWithStr ((".tex").data) f.name)
    texFiles.foldl texStep []

/-- Content of the `refs.bib` file of the pure-BibTeX scenario. -/
def c1content : Str :=
  ("@article\x7bdoe2020, author = \x7bJohn Doe\x7d, title = \x7bA Study\x7d, year = \x7b2020\x7d\x7d").data

/-- Content of the `.tex` file of the bibitem-fallback scenario. -/
def c2content : Str :=
  ("\\begin\x7bthebibliography\x7d\x7b9\x7d\\bibitem\x7blee2019\x7d J. Lee. Deep Networks. \\newblock In Proceedings of the International Conference on Learning. 2019.\\end\x7bthebibliography\x7d").data

/-- The record the bibitem-fallback scenario actually produces. -/
def c2entry : Entry :=
  { id := ("lee2019").data
    type := ("bibitem").data
    author := some (("J. Lee. Deep Networks").data)
    title := some (("In Proceedings of the International Conference on Learning. 2019").data)
    booktitle := some (("International Conference on Learning").data)
    year := some (("2019").data)
    raw_text := some (("J. Lee. Deep Networks. \\newblock In Proceedings of the International Conference on Learning. 2019.").data)
    raw_bibitem := some (("\\bibitem\x7blee2019\x7d J. Lee. Deep Networks. \\newblock In Proceedings of the International Conference on Learning. 2019.").data) }

/-- A BibTeX content with two entries; the first is followed by `@`, so it is the
one the entry pattern can match. -/
def c3content : Str :=
  ("@article\x7ba, title = \x7bT\x7d\x7d @article\x7bb, title = \x7bU\x7d\x7d").data

/-- The `raw_bibtex` reconstruction the parse of `c3content` produces for its entry. -/
def c3raw : Str := ("@article\x7ba, title = \x7bT\x7d\x7d\x7d").data

/-- Keys of a mapping values list. -/
def ids (l : List Entry) : List Str := l.map Entry.id

/-- The last entry with the given id in a list of parsed entries. -/
def findLast? (x : Str) : List Entry → Option Entry
  | [] => none
  | e :: t =>
    match findLast? x t with
    | some r => some r
    | none => if e.id = x then some e else none

/-- Entries a file contributes in the BibTeX branch of the dispatcher. -/
def bibFileEntries (f : MFile) : List Entry :=
  match f.content with
  | some c => parseBibtexContent c
  | none => []

/-- Entries a file contributes in the LaTeX branch of the dispatcher. -/
def texFileEntries (f : MFile) : List Entry :=
  match f.content with
  | some c => if containsSub (("\\bibitem").data) c then parseLatexBibliographyContent c else []
  | none => []

/-- Entries of a readable `.tex` file under the spec reading, where the
`\bibitem` test is part of the file selection. -/
def specTexEntries (f : MFile) : List Entry :=
  match f.content with
  | some c => parseLatexBibliographyContent c
  | none => []

/-- Whether a file is readable and its content contains `\bibitem`. -/
def hasBibitemF (f : MFile) : Bool :=
  match f.content with
  | some c => containsSub (("\\bibitem").data) c
  | none => false

/-- The dispatcher as the amended claim C5 describes it: the BibTeX parser runs
on every readable `.bib` file when at least one `.bib` file could be read, and
only when none could be read are the readable `.tex` files whose content
contains `\bibitem` parsed; either way the per-file entry lists are merged into
one mapping keyed by id. -/
def extractReferencesSpec (files : List MFile) : List Entry :=
  let rbibs := (files.filter (fun f => endsWithStr ((".bib").data) f.name)).filter readableF
  if rbibs.isEmpty then
    let rtexs :=
      ((files.filter (fun f => endsWithStr ((".tex").data) f.name)).filter readableF).filter
        hasBibitemF
    (((rtexs.map specTexEntries)).flatten).foldl upsert []
  else (((rbibs.map bibFileEntries)).flatten).foldl upsert []

/-- First witness file of the last-write-wins scenario. -/
def c4c1 : Str := ("@article\x7bx, title = \x7bT1\x7d\x7d @article\x7bx2, note = \x7bn\x7d\x7d").data

/-- Second witness file of the last-write-wins scenario. -/
def c4c2 : Str := ("@article\x7bx, title = \x7bT2\x7d\x7d @article\x7bx3, note = \x7bm\x7d\x7d").data

/-- The entry with id `x` parsed from the first witness file. -/
def c4e1 : Entry :=
  { id := ("x").data
    type := ("article").data
    title := some (("T1").data)
    raw_bibtex := some (("@article\x7bx, title = \x7bT1\x7d\x7d\x7d").data) }

/-- The entry with id `x` parsed from the second witness file. -/
def c4e2 : Entry :=
  { id := ("x").data
    type := ("article").data
    title := some (("T2").data)
    raw_bibtex := some (("@article\x7bx, title = \x7bT2\x7d\x7d\x7d").data) }

/-- Directory of the C5 counterexample: one unreadable `.bib` file and one
readable `.tex` file with a `\bibitem`. -/
def c5dir : List MFile :=
  [⟨("r.bib").data, none⟩, ⟨("m.tex").data, some (("\\bibitem\x7bk\x7d A.").data)⟩]

/-- Claim C1: the pure-BibTeX scenario is supposed to yield exactly one record
(`doe2020`).  The code yields none: the entry pattern requires the lookahead
`\s*@|\s*\Z` after the body, and in JavaScript `\Z` matches a literal `Z`, so an
entry followed by neither `@` nor `Z` is never matched.  The theorem evaluates
the parser and the dispatcher at the scenario input: both return the empty list. -/
theorem c1_code_bug :
    parseBibtexContent c1content = []
      ∧ extractReferences [⟨("refs.bib").data, some c1content⟩] = [] :=
  ⟨rfl, rfl⟩

/-- Claim C2, counterexample: in the bibitem-fallback scenario the single
returned record has author `J. Lee. Deep Networks`, not `J. Lee` — the logical
line splitter breaks only at `\newblock` and line breaks, never at sentence
periods, so the claimed author and title values are wrong. -/
theorem c2_counterexample :
    (extractReferences [⟨("main.tex").data, some c2content⟩]).map (fun e => e.author)
        = [some (("J. Lee. Deep Networks").data)]
      ∧ (("J. Lee. Deep Networks").data : Str) ≠ ("J. Lee").data := by
  exact ⟨rfl, by decide⟩

/-- Claim C2, amended: the scenario yields exactly one record with id `lee2019`,
author `J. Lee. Deep Networks`, title
`In Proceedings of the International Conference on Learning. 2019`, booktitle
`International Conference on Learning` (no journal pattern matches), and year `2019`. -/
theorem c2_amended :
    extractReferences [⟨("main.tex").data, some c2content⟩] = [c2entry] :=
  rfl

/-- Claim C3: the round trip is supposed to re-parse every entry's `raw_bibtex`
to an entry with the same id and fields.  Parsing `c3content` yields one entry
(id `a`, title `T`) whose reconstructed `raw_bibtex` is `@article{a, title = {T}}}`,
and re-parsing that string in isolation yields no entry at all: the reconstruction
is never followed by `@` or a literal `Z`, so the JavaScript reading of the
lookahead `(?=\s*@|\s*\Z)` can never succeed on it. -/
theorem c3_code_bug :
    (parseBibtexContent c3content).map (fun e => (e.id, e.title, e.raw_bibtex))
        = [(("a").data, some (("T").data), some c3raw)]
      ∧ parseBibtexContent c3raw = [] :=
  ⟨rfl, rfl⟩

/-- Claim C8: the normalizer decodes the umlaut and acute accent escapes of the
two spec examples and returns the empty (falsy) input unchanged. -/
theorem c8_clean_value :
    cleanBibtexValue (("\x7b\\\"u\x7dber").data) = ("über").data
      ∧ cleanBibtexValue (("\\\x27\x7be\x7dtoile").data) = ("étoile").data
      ∧ cleanBibtexValue ([] : Str) = [] :=
  ⟨rfl, rfl, rfl⟩

/-- Claim C10: a bibitem body that is only the token `arXiv:2005.14165` gets
year `2005` — the year regex takes the first word-bounded four-digit token
beginning `19` or `20` anywhere in the text, including the prefix of the arXiv
identifier — in addition to the arxiv field `2005.14165`. -/
theorem c10_year_from_arxiv :
    (parseBibitemContent (("arXiv:2005.14165").data)).year = some (("2005").data)
      ∧ (parseBibitemContent (("arXiv:2005.14165").data)).arxiv
          = some (("2005.14165").data) :=
  ⟨rfl, rfl⟩

/-- Projection of the pages field of `parseBibitemContent`: capture then dash
normalization. -/
theorem pages_proj (body : Str) :
    (parseBibitemContent body).pages = (pagesCapture (trimStr (collapseWs body))).map dashFix :=
  rfl

/-- The normalization of one character is never an en or em dash. -/
theorem dashFix_char (a : Char) :
    (if a == '–' || a == '—' then '-' else a) ≠ '–'
      ∧ (if a == '–' || a == '—' then '-' else a) ≠ '—' := by
  by_cases h : (a == '–' || a == '—') = true
  · rw [if_pos h]; exact ⟨by decide, by decide⟩
  · rw [if_neg h]
    simp only [Bool.or_eq_true, beq_iff_eq, not_or] at h
    exact h

/-- The dash normalization leaves no en or em dash behind. -/
theorem dashFix_no_dash (q : Str) : ∀ c ∈ dashFix q, c ≠ '–' ∧ c ≠ '—' := by
  intro c hc
  rcases List.mem_map.mp hc with ⟨a, _, rfl⟩
  exact dashFix_char a

/-- Claim C9: whenever the pages capture of a bibitem body is `123–125` (en dash)
or `123—125` (em dash), the record's pages field is `123-125`; in general every
en or em dash of the captured run is normalized to an ASCII hyphen. -/
theorem c9_dash_normalization :
    (∀ body : Str, pagesCapture (trimStr (collapseWs body)) = some (("123–125").data) →
        (parseBibitemContent body).pages = some (("123-125").data))
      ∧ (∀ body : Str, pagesCapture (trimStr (collapseWs body)) = some (("123—125").data) →
        (parseBibitemContent body).pages = some (("123-125").data))
      ∧ (∀ (body p : Str), (parseBibitemContent body).pages = some p →
        ∀ c ∈ p, c ≠ '–' ∧ c ≠ '—') := by
  refine ⟨fun body h => ?_, fun body h => ?_, fun body p h => ?_⟩
  · rw [pages_proj, h]; rfl
  · rw [pages_proj, h]; rfl
  · rw [pages_proj] at h
    rcases Option.map_eq_some'.mp h with ⟨q, _, rfl⟩
    exact dashFix_no_dash q

/-- Witness for C9: the body `pp. 123–125` satisfies the hypothesis of the first
conjunct and the record's pages field is the normalized `123-125`. -/
theorem c9_witness :
    pagesCapture (trimStr (collapseWs (("pp. 123–125").data))) = some (("123–125").data)
      ∧ (parseBibitemContent (("pp. 123–125").data)).pages = some (("123-125").data) :=
  ⟨rfl, c9_dash_normalization.1 (("pp. 123–125").data) rfl⟩

theorem ids_upsert_mem (l : List Entry) (e : Entry) (hm : e.id ∈ ids l) :
    ids (upsert l e) = ids l := by
  induction l with
  | nil => simp [ids] at hm
  | cons a t ih =>
    by_cases h : a.id = e.id
    · simp [upsert, h, ids]
    · have hm' : e.id ∈ ids t := by
        rcases List.mem_cons.mp hm with h1 | h2
        · exact absurd h1.symm h
        · exact h2
      simp only [upsert, if_neg h, ids, List.map_cons]
      exact congrArg (List.cons a.id) (ih hm')

theorem ids_upsert_not_mem (l : List Entry) (e : Entry) (hm : e.id ∉ ids l) :
    ids (upsert l e) = ids l ++ [e.id] := by
  induction l with
  | nil => simp [upsert, ids]
  | cons a t ih =>
    have h : ¬(a.id = e.id) := fun hh => hm (by
      rw [show ids (a :: t) = a.id :: ids t from rfl, hh]
      exact List.mem_cons_self _ _)
    have hmt : e.id ∉ ids t := fun hh => hm (List.mem_cons_of_mem _ hh)
    simp only [upsert, if_neg h, ids, List.map_cons, List.cons_append]
    exact congrArg (List.cons a.id) (ih hmt)

theorem nodup_ids_upsert (l : List Entry) (e : Entry) (h : (ids l).Nodup) :
    (ids (upsert l e)).Nodup := by
  by_cases hm : e.id ∈ ids l
  · rw [ids_upsert_mem l e hm]; exact h
  · rw [ids_upsert_not_mem l e hm]
    simp [List.nodup_append, h, hm]

theorem nodup_ids_foldl : ∀ (es l : List Entry), (ids l).Nodup →
    (ids (es.foldl upsert l)).Nodup := by
  intro es
  induction es with
  | nil => intro l h; exact h
  | cons e t ih => intro l h; exact ih _ (nodup_ids_upsert l e h)

theorem filter_id_not_mem (l : List Entry) (x : Str) (h : x ∉ ids l) :
    l.filter (fun a => decide (a.id = x)) = [] := by
  induction l with
  | nil => rfl
  | cons a t ih =>
    have hax : ¬(a.id = x) := fun he => h (by simp [ids, he])
    have ht : x ∉ ids t := fun hm => h (by simp [ids] at hm ⊢; exact Or.inr hm)
    simp [List.filter_cons, hax, ih ht]

theorem filter_id_upsert_ne (l : List Entry) (e : Entry) (x : Str) (h : ¬(e.id = x)) :
    (upsert l e).filter (fun a => decide (a.id = x)) = l.filter (fun a => decide (a.id = x)) := by
  induction l with
  | nil => simp [upsert, h]
  | cons a t ih =>
    by_cases ha : a.id = e.id
    · have hax : ¬(a.id = x) := fun hx => h (ha ▸ hx)
      simp [upsert, ha, List.filter_cons, h, hax]
    · simp [upsert, ha, List.filter_cons, ih]

theorem filter_id_upsert_eq (l : List Entry) (e : Entry) (x : Str) (h : e.id = x)
    (hn : (ids l).Nodup) :
    (upsert l e).filter (fun a => decide (a.id = x)) = [e] := by
  induction l with
  | nil => simp [upsert, h]
  | cons a t ih =>
    have hna : a.id ∉ ids t := (List.nodup_cons.mp (by simpa [ids] using hn)).1
    have hnt : (ids t).Nodup := (List.nodup_cons.mp (by simpa [ids] using hn)).2
    by_cases ha : a.id = e.id
    · have hat : x ∉ ids t := by rw [← h, ← ha]; exact hna
      simp [upsert, ha, List.filter_cons, h, filter_id_not_mem t x hat]
    · have hax : ¬(a.id = x) := fun hx => ha (by rw [hx, ← h])
      simp [upsert, ha, List.filter_cons, hax, ih hnt]

theorem filter_id_foldl (x : Str) :
    ∀ (es l : List Entry), (ids l).Nodup →
      (es.foldl upsert l).filter (fun a => decide (a.id = x)) =
        (match findLast? x es with
         | some e => [e]
         | none => l.filter (fun a => decide (a.id = x))) := by
  intro es
  induction es with
  | nil => intro l _; rfl
  | cons e t ih =>
    intro l hn
    have step := ih (upsert l e) (nodup_ids_upsert l e hn)
    simp only [List.foldl_cons]
    rw [step]
    show _ = (match findLast? x (e :: t) with
              | some r => [r]
              | none => l.filter (fun a => decide (a.id = x)))
    simp only [findLast?]
    cases hf : findLast? x t with
    | some r => rfl
    | none =>
      by_cases he : e.id = x
      · simp only [he, if_pos]
        exact filter_id_upsert_eq l e x he hn
      · simp only [he, if_neg, if_false]
        exact filter_id_upsert_ne l e x he

theorem findLast?_append (x : Str) (a b : List Entry) :
    findLast? x (a ++ b) =
      (match findLast? x b with
       | some r => some r
       | none => findLast? x a) := by
  induction a with
  | nil =>
    rw [List.nil_append]
    cases hb : findLast? x b <;> rfl
  | cons e t ih =>
    rw [List.cons_append]
    simp only [findLast?]
    rw [ih]
    cases hb : findLast? x b <;> rfl

theorem bibFold_fst : ∀ (l : List MFile) (acc : List Entry) (b : Bool),
    (l.foldl bibStep (acc, b)).1 = ((l.map bibFileEntries).flatten).foldl upsert acc := by
  intro l
  induction l with
  | nil => intro acc b; rfl
  | cons f t ih =>
    intro acc b
    cases hc : f.content with
    | none => simp [bibStep, hc, bibFileEntries, ih]
    | some c => simp [bibStep, hc, bibFileEntries, ih, List.foldl_append]

theorem bibFold_snd : ∀ (l : List MFile) (acc : List Entry) (b : Bool),
    (l.foldl bibStep (acc, b)).2 = (b || l.any readableF) := by
  intro l
  induction l with
  | nil => intro acc b; simp
  | cons f t ih =>
    intro acc b
    cases hc : f.content with
    | none => simp [bibStep, hc, ih, readableF]
    | some c => simp [bibStep, hc, ih, readableF]

theorem texFold : ∀ (l : List MFile) (acc : List Entry),
    l.foldl texStep acc = ((l.map texFileEntries).flatten).foldl upsert acc := by
  intro l
  induction l with
  | nil => intro acc; rfl
  | cons f t ih =>
    intro acc
    cases hc : f.content with
    | none => simp [texStep, hc, texFileEntries, ih]
    | some c =>
      by_cases hb : containsSub (("\\bibitem").data) c
      · simp [texStep, hc, texFileEntries, ih, hb, List.foldl_append]
      · simp [texStep, hc, texFileEntries, ih, hb]

theorem filter_isEmpty_not_any {α : Type} (p : α → Bool) (l : List α) :
    (l.filter p).isEmpty = !(l.any p) := by
  induction l with
  | nil => rfl
  | cons a t ih => cases hp : p a <;> simp [List.filter_cons, hp, ih]

theorem flatten_map_filter {α : Type} (g : α → List Entry) (p : α → Bool)
    (h : ∀ f, p f = false → g f = []) :
    ∀ l : List α, ((l.filter p).map g).flatten = (l.map g).flatten := by
  intro l
  induction l with
  | nil => rfl
  | cons a t ih =>
    cases hp : p a with
    | true => simp [List.filter_cons, hp, ih]
    | false => simp [List.filter_cons, hp, ih, h a hp]

theorem filter_swap_idem {α : Type} (p q : α → Bool) (l : List α) :
    ((l.filter q).filter p).filter q = (l.filter p).filter q := by
  simp only [List.filter_filter]
  apply List.filter_congr
  intro b _
  cases q b <;> cases p b <;> rfl

theorem bibFileEntries_unreadable (f : MFile) (h : readableF f = false) :
    bibFileEntries f = [] := by
  cases hc : f.content with
  | none => simp [bibFileEntries, hc]
  | some c => simp [readableF, hc] at h

theorem texFileEntries_unreadable (f : MFile) (h : readableF f = false) :
    texFileEntries f = [] := by
  cases hc : f.content with
  | none => simp [texFileEntries, hc]
  | some c => simp [readableF, hc] at h

theorem texFileEntries_no_bibitem (f : MFile) (h : hasBibitemF f = false) :
    texFileEntries f = [] := by
  cases hc : f.content with
  | none => simp [texFileEntries, hc]
  | some c =>
    simp only [hasBibitemF, hc] at h
    simp [texFileEntries, hc, h]

theorem texFileEntries_eq_spec (f : MFile) (h : hasBibitemF f = true) :
    texFileEntries f = specTexEntries f := by
  cases hc : f.content with
  | none => simp [hasBibitemF, hc] at h
  | some c =>
    simp only [hasBibitemF, hc] at h
    simp [texFileEntries, specTexEntries, hc, h]

/-- Normal form of the dispatcher: the `foundBibtex` flag of the fold is whether
some `.bib` file is readable, and each branch merges the concatenation of the
per-file entry lists into the mapping. -/
theorem extractReferences_normal (files : List MFile) :
    extractReferences files =
      if (files.filter (fun f => endsWithStr ((".bib").data) f.name)).any readableF then
        (((files.filter (fun f => endsWithStr ((".bib").data) f.name)).map
            bibFileEntries).flatten).foldl upsert []
      else
        (((files.filter (fun f => endsWithStr ((".tex").data) f.name)).map
            texFileEntries).flatten).foldl upsert [] := by
  simp only [extractReferences]
  rw [bibFold_snd, bibFold_fst, texFold]
  simp only [Bool.false_or]

/-- The dispatcher agrees with its spec-side description everywhere. -/
theorem extractReferences_eq_specAux (files : List MFile) :
    extractReferences files = extractReferencesSpec files := by
  rw [extractReferences_normal]
  simp only [extractReferencesSpec]
  rw [filter_isEmpty_not_any]
  cases hA : (files.filter (fun f => endsWithStr ((".bib").data) f.name)).any readableF with
  | true =>
    simp only [Bool.not_true, Bool.false_eq_true, if_false, if_true]
    rw [flatten_map_filter bibFileEntries readableF bibFileEntries_unreadable]
  | false =>
    simp only [Bool.not_false, Bool.false_eq_true, if_false, if_true]
    have hcongr :
        (((((files.filter (fun f => endsWithStr ((".tex").data) f.name)).filter
            readableF).filter hasBibitemF)).map specTexEntries)
          = (((((files.filter (fun f => endsWithStr ((".tex").data) f.name)).filter
            readableF).filter hasBibitemF)).map texFileEntries) := by
      apply List.map_congr_left
      intro f hf
      exact (texFileEntries_eq_spec f (List.mem_filter.mp hf).2).symm
    rw [hcongr,
        flatten_map_filter texFileEntries hasBibitemF texFileEntries_no_bibitem,
        flatten_map_filter texFileEntries readableF texFileEntries_unreadable]

/-- Claim C4: in the result of `extractReferences` every id occurs at most once,
and when two `.bib` files in one directory both yield an entry with id `x` (with
different titles), the single merged entry with id `x` is the last `x`-entry of
the file processed last in enumeration order. -/
theorem c4_unique_last_write_wins :
    (∀ files : List MFile, (ids (extractReferences files)).Nodup)
      ∧ (∀ (n1 n2 c1 c2 x : Str) (e1 e2 : Entry),
          endsWithStr ((".bib").data) n1 = true →
          endsWithStr ((".bib").data) n2 = true →
          findLast? x (parseBibtexContent c1) = some e1 →
          findLast? x (parseBibtexContent c2) = some e2 →
          e1.title ≠ e2.title →
          (extractReferences [⟨n1, some c1⟩, ⟨n2, some c2⟩]).filter
              (fun a => decide (a.id = x)) = [e2]) := by
  constructor
  · intro files
    rw [extractReferences_normal]
    split
    · exact nodup_ids_foldl _ [] List.nodup_nil
    · exact nodup_ids_foldl _ [] List.nodup_nil
  · intro n1 n2 c1 c2 x e1 e2 h1 h2 hf1 hf2 _
    have hfil : ([⟨n1, some c1⟩, ⟨n2, some c2⟩] : List MFile).filter
        (fun f => endsWithStr ((".bib").data) f.name) = [⟨n1, some c1⟩, ⟨n2, some c2⟩] := by
      simp [List.filter_cons, h1, h2]
    simp only [extractReferences]
    rw [hfil]
    simp only [List.foldl_cons, List.foldl_nil, bibStep, if_true]
    rw [← List.foldl_append,
        filter_id_foldl x (parseBibtexContent c1 ++ parseBibtexContent c2) [] List.nodup_nil,
        findLast?_append, hf2]

/-- Witness for C4: two concrete `.bib` files both defining id `x` with titles
`T1` and `T2`; the merged result holds exactly the `T2` entry under id `x`. -/
theorem c4_witness :
    endsWithStr ((".bib").data) (("a.bib").data) = true
      ∧ findLast? (("x").data) (parseBibtexContent c4c1) = some c4e1
      ∧ findLast? (("x").data) (parseBibtexContent c4c2) = some c4e2
      ∧ c4e1.title ≠ c4e2.title
      ∧ (extractReferences [⟨("a.bib").data, some c4c1⟩, ⟨("b.bib").data, some c4c2⟩]).filter
          (fun a => decide (a.id = ("x").data)) = [c4e2] :=
  ⟨rfl, rfl, rfl, by decide,
    c4_unique_last_write_wins.2 (("a.bib").data) (("b.bib").data) c4c1 c4c2 (("x").data)
      c4e1 c4e2 rfl rfl rfl rfl (by decide)⟩

/-- Claim C5, counterexample: the directory contains one `.bib` file, yet the
result is the record of the LaTeX bibliography parser — the fallback runs because
no `.bib` file could be read, not because none exists. -/
theorem c5_counterexample :
    c5dir.countP (fun f => endsWithStr ((".bib").data) f.name) = 1
      ∧ (extractReferences c5dir).map (fun e => (e.id, e.type))
          = [(("k").data, ("bibitem").data)] :=
  ⟨rfl, rfl⟩

/-- Claim C5, amended: the BibTeX parser is applied to every readable `.bib`
file, and the `.tex` files (exactly the readable ones whose content contains
`\bibitem`) are parsed with the LaTeX bibliography parser precisely when no
`.bib` file could be read; both branches union the per-file results into one
mapping keyed by id.  The right-hand side `extractReferencesSpec` is that
description written out. -/
theorem c5_dispatch_amended (files : List MFile) :
    extractReferences files = extractReferencesSpec files :=
  extractReferences_eq_specAux files

/-- The state of the shared `BIBITEM_PATTERN` object after a completed parser
loop is always `0`: the loop only exits when `exec` returns `null`, which resets
`lastIndex`. -/
theorem bibExecLoop_snd (s : Str) : ∀ k : Nat, (bibExecLoop k s).2 = 0 := by
  induction s with
  | nil => intro k; cases k <;> rfl
  | cons c t ih =>
    intro k
    cases k with
    | succ k' => exact ih k'
    | zero =>
      simp only [bibExecLoop]
      cases h : bibitemAttempt (c :: t) with
      | none => exact ih 0
      | some mn =>
        obtain ⟨m, n⟩ := mn
        exact ih (n - 1)

/-- Claim C6: the LaTeX bibliography parser is deterministic across calls — a
second call on the same string, started in the regex state the first call left
behind, returns the same list, because every completed call resets the shared
`BIBITEM_PATTERN.lastIndex` to `0` (the BibTeX parser's regex objects are local
to each call, so it is modelled as a pure function). -/
theorem c6_parse_deterministic (content : Str) :
    (parseLatexBibliographyContentS content
        ((parseLatexBibliographyContentS content 0).2)).1
      = (parseLatexBibliographyContentS content 0).1
      ∧ ∀ s : Nat, (parseLatexBibliographyContentS content s).2 = 0 := by
  have hz : ∀ s : Nat, (parseLatexBibliographyContentS content s).2 = 0 := fun s =>
    bibExecLoop_snd (content.drop s) 0
  exact ⟨by rw [hz 0], hz⟩

/-- Claim C7: a directory with no `.bib` and no `.tex` files yields the empty
list (the model function is total, mirroring the per-file try/catch of the
source, so no exception escapes), and unreadable files are skipped — the result
over any directory equals the result over its readable files alone. -/
theorem c7_no_source_and_skip :
    (∀ files : List MFile,
        (∀ f ∈ files, endsWithStr ((".bib").data) f.name = false
            ∧ endsWithStr ((".tex").data) f.name = false) →
        extractReferences files = [])
      ∧ (∀ files : List MFile,
        extractReferences files = extractReferences (files.filter readableF)) := by
  constructor
  · intro files h
    rw [extractReferences_normal]
    have hb : files.filter (fun f => endsWithStr ((".bib").data) f.name) = [] :=
      List.filter_eq_nil_iff.mpr (fun f hf => by simp [(h f hf).1])
    have ht : files.filter (fun f => endsWithStr ((".tex").data) f.name) = [] :=
      List.filter_eq_nil_iff.mpr (fun f hf => by simp [(h f hf).2])
    rw [hb, ht]
    rfl
  · intro files
    rw [extractReferences_eq_specAux, extractReferences_eq_specAux]
    simp only [extractReferencesSpec]
    rw [filter_swap_idem (fun f => endsWithStr ((".bib").data) f.name) readableF files,
        filter_swap_idem (fun f => endsWithStr ((".tex").data) f.name) readableF files]

/-- Witness for C7: a directory holding only a `.pdf` file returns the empty list. -/
theorem c7_witness :
    extractReferences [⟨("paper.pdf").data, some (("x").data)⟩] = [] :=
  c7_no_source_and_skip.1 [⟨("paper.pdf").data, some (("x").data)⟩] (by decide)

end LatexRefs
